import Mathlib

/-!
# reactpage: the editable user table and the counter

A shallow embedding of the state handlers of `src/components/DataTable.js`
and `src/components/Counter.js`.  Every React state variable becomes a field
of a state record and every handler a function from state to state.  The
answers of the environment (the text typed into an input, the answer to
`window.confirm`, the clock reading of `toLocaleTimeString`) are arguments
of the handlers.
-/

namespace DataTable

/-- One stored row: `{ id, name, email, role, active }`. -/
structure User where
  id : Nat
  name : String
  email : String
  role : String
  active : Bool
  deriving DecidableEq, Repr

/-- The object held by `editFormData`: `{ name, email, role, active }`. -/
structure EditFormData where
  name : String
  email : String
  role : String
  active : Bool
  deriving DecidableEq, Repr

/-- The state variables of the component, in the order of their `useState`
calls; `editingId` is `null` (here `none`) or a row id. -/
structure TableState where
  users : List User
  loading : Bool
  searchTerm : String
  editingId : Option Nat
  editFormData : EditFormData
  deriving DecidableEq, Repr

/-- The sample data. -/
def initialUsers : List User :=
  [ { id := 1, name := "John Doe", email := "john@example.com", role := "Admin", active := true },
    { id := 2, name := "Jane Smith", email := "jane@example.com", role := "User", active := true },
    { id := 3, name := "Bob Johnson", email := "bob@example.com", role := "User", active := false },
    { id := 4, name := "Alice Brown", email := "alice@example.com", role := "Editor", active := true },
    { id := 5, name := "Charlie Wilson", email := "charlie@example.com", role := "Viewer", active := false } ]

/-- The initial value of `editFormData`. -/
def initialEditFormData : EditFormData :=
  { name := "", email := "", role := "User", active := false }

/-- The state at mount: the arguments of the five `useState` calls. -/
def initialState : TableState :=
  { users := [], loading := true, searchTerm := "", editingId := none,
    editFormData := initialEditFormData }

/-- The callback of the load timer: `setUsers(initialUsers); setLoading(false)`. -/
def loadData (st : TableState) : TableState :=
  { st with users := initialUsers, loading := false }

/-- The call `s.includes(t)`: `t` occurs in `s` as a contiguous run of characters. -/
def includes (s t : String) : Bool :=
  decide (t.data <:+: s.data)

/-- The handler `handleSearch`: `setSearchTerm(e.target.value.toLowerCase())`.  The
runtime's `toLowerCase` is the argument `toLowerCase`; `value` is
`e.target.value`. -/
def handleSearch (toLowerCase : String → String) (value : String)
    (st : TableState) : TableState :=
  { st with searchTerm := toLowerCase value }

/-- The predicate passed to `users.filter` in `filteredUsers`. -/
def matchesSearch (toLowerCase : String → String) (searchTerm : String)
    (user : User) : Bool :=
  let searchLower := toLowerCase searchTerm
  includes (toLowerCase user.name) searchLower ||
  includes (toLowerCase user.email) searchLower ||
  includes (toLowerCase user.role) searchLower

/-- The list `filteredUsers`: the rows that are rendered. -/
def filteredUsers (toLowerCase : String → String) (st : TableState) : List User :=
  st.users.filter (matchesSearch toLowerCase st.searchTerm)

/-- The handler `handleEdit(user)`: `setEditingId(user.id)` and the draft seeded from the
four editable fields of `user`. -/
def handleEdit (user : User) (st : TableState) : TableState :=
  { st with
    editingId := some user.id
    editFormData :=
      { name := user.name, email := user.email, role := user.role, active := user.active } }

/-- The `e.target` of a change event of one of the four inputs rendered in an
editing row.  The inputs `name` (type text), `email` (type email) and `role`
(a select) are not checkboxes, so `type === 'checkbox' ? checked : value`
is their `value`; the input `active` is a checkbox, so it is `checked`. -/
inductive EditChange where
  | name (value : String)
  | email (value : String)
  | role (value : String)
  | active (checked : Bool)
  deriving DecidableEq, Repr

/-- The handler `handleEditChange(e)`: `{ ...prev, [name]: type === 'checkbox' ? checked : value }`. -/
def handleEditChange (e : EditChange) (st : TableState) : TableState :=
  { st with
    editFormData :=
      match e with
      | .name value => { st.editFormData with name := value }
      | .email value => { st.editFormData with email := value }
      | .role value => { st.editFormData with role := value }
      | .active checked => { st.editFormData with active := checked } }

/-- The object `{ ...user, ...editFormData }`: the id of `user`, every other
field from the draft. -/
def mergeDraft (user : User) (editFormData : EditFormData) : User :=
  { id := user.id, name := editFormData.name, email := editFormData.email,
    role := editFormData.role, active := editFormData.active }

/-- The handler `handleSave(id)`: the draft merged into each row whose id is `id`, then
`setEditingId(null)`. -/
def handleSave (id : Nat) (st : TableState) : TableState :=
  { st with
    users := st.users.map (fun user => if user.id = id then mergeDraft user st.editFormData else user)
    editingId := none }

/-- The handler `handleDelete(id)`; `confirmed` is what `window.confirm` returned. -/
def handleDelete (confirmed : Bool) (id : Nat) (st : TableState) : TableState :=
  if confirmed then
    { st with users := st.users.filter (fun user => user.id != id) }
  else st

/-- The `onClick` of the cancel button: `setEditingId(null)`. -/
def cancelClick (st : TableState) : TableState :=
  { st with editingId := none }

/-- The test `editingId === user.id` that decides, for a rendered row, between
the editing form with its Save and Cancel buttons and the plain row with its
Edit and Delete buttons. -/
def rowEditing (st : TableState) (user : User) : Bool :=
  st.editingId == some user.id

/-- The ids `i` for which a button `save-i` is rendered. -/
def saveButtons (toLowerCase : String → String) (st : TableState) : List Nat :=
  ((filteredUsers toLowerCase st).filter (fun user => rowEditing st user)).map (·.id)

/-- The ids `i` for which a button `delete-i` is rendered. -/
def deleteButtons (toLowerCase : String → String) (st : TableState) : List Nat :=
  ((filteredUsers toLowerCase st).filter (fun user => !rowEditing st user)).map (·.id)

/-- A lower-casing of the letters `A` to `Z`, used to evaluate the search on
concrete text. -/
def asciiLower (s : String) : String :=
  ⟨s.data.map Char.toLower⟩

end DataTable

namespace Counter

/-- One entry of the history: `{ action, timestamp }`. -/
structure HistoryItem where
  action : String
  timestamp : String
  deriving DecidableEq, Repr

/-- The state variables of the component.  `count` and `step` are JavaScript
numbers that only ever hold integers; they are integers here. -/
structure CounterState where
  count : Int
  step : Int
  autoIncrement : Bool
  history : List HistoryItem
  deriving DecidableEq, Repr

/-- The state at mount: the arguments of the four `useState` calls. -/
def initialState : CounterState :=
  { count := 0, step := 1, autoIncrement := false, history := [] }

/-- The helper `addToHistory(action)`: `[{ action, timestamp }, ...prev].slice(0, 5)`;
`timestamp` is the reading of `new Date().toLocaleTimeString()`. -/
def addToHistory (action timestamp : String) (st : CounterState) : CounterState :=
  { st with history := ({ action := action, timestamp := timestamp } :: st.history).take 5 }

/-- The handler `increment`: the updater of `setCount` adds the step and records the action. -/
def increment (timestamp : String) (st : CounterState) : CounterState :=
  let newCount := st.count + st.step
  addToHistory ("Incremented by " ++ toString st.step ++ " to " ++ toString newCount) timestamp
    { st with count := newCount }

/-- The handler `decrement`: the updater of `setCount` subtracts the step and records the action. -/
def decrement (timestamp : String) (st : CounterState) : CounterState :=
  let newCount := st.count - st.step
  addToHistory ("Decremented by " ++ toString st.step ++ " to " ++ toString newCount) timestamp
    { st with count := newCount }

/-- The handler `reset`: `setCount(0); setStep(1); setAutoIncrement(false)` and the history entry. -/
def reset (timestamp : String) (st : CounterState) : CounterState :=
  addToHistory "Counter reset to 0" timestamp
    { st with count := 0, step := 1, autoIncrement := false }

/-- The handler `toggleAutoIncrement`: the flag is negated and the entry tells the new state. -/
def toggleAutoIncrement (timestamp : String) (st : CounterState) : CounterState :=
  let newState := !st.autoIncrement
  addToHistory (if newState then "Auto-increment started" else "Auto-increment stopped")
    timestamp { st with autoIncrement := newState }

/-- One firing of the interval of the effect.  The effect installs the interval
only while `autoIncrement` is true, clears it in its cleanup, and runs again
when `autoIncrement` or `step` changes, so a firing happens only while the
flag is set and sees the current step. -/
def tick (timestamp : String) (st : CounterState) : CounterState :=
  if st.autoIncrement then
    let newCount := st.count + st.step
    addToHistory ("Auto-incremented by " ++ toString st.step ++ " to " ++ toString newCount)
      timestamp { st with count := newCount }
  else st

/-- The characters that `parseInt` skips at the start of its input: the white
space and line terminators of ECMAScript. -/
def isStrWhiteSpaceChar (c : Char) : Bool :=
  c.toNat ∈ [0x9, 0xA, 0xB, 0xC, 0xD, 0x20, 0xA0, 0x1680, 0x2028, 0x2029, 0x202F, 0x205F,
    0x3000, 0xFEFF] || (0x2000 ≤ c.toNat && c.toNat ≤ 0x200A)

/-- The built-in `parseInt(string, 10)`: leading white space is skipped, one sign
is read, then the longest run of decimal digits; `none` is `NaN`, the result
when that run is empty. -/
def parseInt (string : String) : Option Int :=
  let s := string.data.dropWhile isStrWhiteSpaceChar
  let sign : Int := match s with
    | '-' :: _ => -1
    | _ => 1
  let s := match s with
    | '-' :: rest => rest
    | '+' :: rest => rest
    | _ => s
  let z := s.takeWhile Char.isDigit
  if z.isEmpty then none
  else some (sign * Int.ofNat (z.foldl (fun acc c => 10 * acc + (c.toNat - 48)) 0))

/-- The handler `handleStepChange(e)`: `parseInt(e.target.value, 10) || 1`, where `NaN` and `0`
are falsy, clamped by `Math.max(1, Math.min(10, newStep))`. -/
def handleStepChange (value : String) (st : CounterState) : CounterState :=
  let newStep : Int := match parseInt value with
    | none => 1
    | some n => if n = 0 then 1 else n
  { st with step := max 1 (min 10 newStep) }

/-- What can happen to the counter: a click on one of the four buttons, a change
of the step input, or a firing of the interval. -/
inductive Action where
  | increment (timestamp : String)
  | decrement (timestamp : String)
  | toggleAutoIncrement (timestamp : String)
  | reset (timestamp : String)
  | handleStepChange (value : String)
  | tick (timestamp : String)
  deriving DecidableEq, Repr

/-- The handler that an action runs. -/
def perform (a : Action) (st : CounterState) : CounterState :=
  match a with
  | .increment timestamp => increment timestamp st
  | .decrement timestamp => decrement timestamp st
  | .toggleAutoIncrement timestamp => toggleAutoIncrement timestamp st
  | .reset timestamp => reset timestamp st
  | .handleStepChange value => handleStepChange value st
  | .tick timestamp => tick timestamp st

/-- The state after a sequence of actions, the first of the list first. -/
def run (actions : List Action) (st : CounterState) : CounterState :=
  actions.foldl (fun s a => perform a s) st

/-- The mounted component: its state variables and the interval that the effect
has installed.  `interval` is `none` when no interval is installed and
`some s` when one is, `s` being the value of `step` in the render whose effect
installed it, which is the `step` its callback adds. -/
structure Mounted where
  state : CounterState
  interval : Option Int
  deriving DecidableEq, Repr

/-- The callback given to `setInterval`, with the `step` of its closure: the
updater of `setCount` adds that step and records the action. -/
def intervalCallback (step : Int) (timestamp : String) (st : CounterState) : CounterState :=
  let newCount := st.count + step
  addToHistory ("Auto-incremented by " ++ toString step ++ " to " ++ toString newCount)
    timestamp { st with count := newCount }

/-- The body of the effect in a render with state `st`: an interval is installed
only if `autoIncrement` is true. -/
def effectBody (st : CounterState) : Option Int :=
  if st.autoIncrement then some st.step else none

/-- The effect after a render that took the state from `prev` to `next`: when
one of the dependencies `[autoIncrement, step]` has changed, the cleanup
`clearInterval(interval)` drops the installed interval and the body runs
again; otherwise the installed interval stays. -/
def useEffect (prev next : CounterState) (interval : Option Int) : Option Int :=
  if prev.autoIncrement = next.autoIncrement ∧ prev.step = next.step then interval
  else effectBody next

/-- The component after its first render and the first run of the effect. -/
def mount : Mounted :=
  { state := initialState, interval := effectBody initialState }

/-- One event on the mounted component.  A `tick` is the timer reaching a
multiple of 1000 ms: the callback of the installed interval runs, and nothing
runs when no interval is installed.  Every other action runs its handler.
The render that follows runs the effect. -/
def dispatch (a : Action) (w : Mounted) : Mounted :=
  match a with
  | .tick timestamp =>
    match w.interval with
    | none => w
    | some step =>
      { state := intervalCallback step timestamp w.state
        interval := useEffect w.state (intervalCallback step timestamp w.state) w.interval }
  | a =>
    { state := perform a w.state
      interval := useEffect w.state (perform a w.state) w.interval }

/-- A sequence of events on the mounted component, the first of the list first. -/
def dispatchAll (actions : List Action) (w : Mounted) : Mounted :=
  actions.foldl (fun v a => dispatch a v) w

end Counter

namespace DataTable

/-! ## The table: lemmas -/

theorem charToNat_ofNat_of_lt (n : Nat) (h : n < 55296) : (Char.ofNat n).toNat = n := by
  have hv : n.isValidChar := Or.inl h
  simp only [Char.ofNat, hv, dite_true, Char.ofNatAux, Char.toNat]
  show (UInt32.ofNat' n _).toNat = n
  simp [UInt32.ofNat', UInt32.toNat]

theorem charToLower_idem (c : Char) : c.toLower.toLower = c.toLower := by
  unfold Char.toLower
  simp only []
  split
  · rename_i h
    have h2 : ¬ ((Char.ofNat (c.toNat + 32)).toNat ≥ 65 ∧
        (Char.ofNat (c.toNat + 32)).toNat ≤ 90) := by
      rw [charToNat_ofNat_of_lt _ (by omega)]
      omega
    simp [h2]
  · rename_i h
    simp [h]

theorem asciiLower_idem (s : String) : asciiLower (asciiLower s) = asciiLower s := by
  simp only [asciiLower, List.map_map]
  congr 1
  apply List.map_congr_left
  intro c _
  exact charToLower_idem c

theorem asciiLower_empty : asciiLower "" = "" := rfl

/-- Deleting by id from a list whose ids are pairwise distinct takes out the
one row carrying the id and nothing else. -/
theorem filter_ne_id_split (l : List User) (id : Nat) (hnd : (l.map (·.id)).Nodup)
    (hmem : ∃ u ∈ l, u.id = id) :
    ∃ l1 x l2, l = l1 ++ x :: l2 ∧ x.id = id ∧
      l.filter (fun user => user.id != id) = l1 ++ l2 := by
  obtain ⟨u, hu, hid⟩ := hmem
  obtain ⟨l1, l2, rfl⟩ := List.append_of_mem hu
  refine ⟨l1, u, l2, rfl, hid, ?_⟩
  simp only [List.map_append, List.map_cons] at hnd
  have h1 : ∀ v ∈ l1, v.id ≠ id := by
    intro v hv heq
    have hdis := (List.nodup_append.mp hnd).2.2
    exact hdis (List.mem_map_of_mem _ hv) (by simp [heq, hid])
  have h2 : ∀ v ∈ l2, v.id ≠ id := by
    intro v hv heq
    have hcons := (List.nodup_append.mp hnd).2.1
    have := (List.nodup_cons.mp hcons).1
    exact this (by rw [hid, ← heq]; exact List.mem_map_of_mem _ hv)
  have f1 : l1.filter (fun user => user.id != id) = l1 :=
    List.filter_eq_self.mpr (fun v hv => by simpa using h1 v hv)
  have f2 : l2.filter (fun user => user.id != id) = l2 :=
    List.filter_eq_self.mpr (fun v hv => by simpa using h2 v hv)
  simp [List.filter_append, List.filter_cons, hid, f1, f2]

/-- The draft mutations do not touch the stored list. -/
theorem foldl_handleEditChange_users (changes : List EditChange) (st : TableState) :
    (changes.foldl (fun s e => handleEditChange e s) st).users = st.users := by
  induction changes generalizing st with
  | nil => rfl
  | cons e rest ih =>
    simp only [List.foldl_cons]
    rw [ih]
    rfl

/-- In a list with pairwise distinct ids a row is determined by its id. -/
theorem eq_of_id_eq (l : List User) (hnd : (l.map (·.id)).Nodup) {u v : User}
    (hu : u ∈ l) (hv : v ∈ l) (hid : u.id = v.id) : u = v :=
  List.inj_on_of_nodup_map hnd hu hv hid

/-! ## The table: the claims -/

/-- C1: after `handleSearch` stored the query `q`, `filteredUsers` is the stored
list, in its stored order, restricted to the rows whose lower-cased name, email
or role contains the lower-cased `q`; the empty query gives the whole stored
list; the stored list is not changed by searching.  The runtime's lower-casing
is any function that fixes its own results and the empty string. -/
theorem filteredUsers_after_handleSearch (toLowerCase : String → String)
    (hidem : ∀ s, toLowerCase (toLowerCase s) = toLowerCase s)
    (hempty : toLowerCase "" = "") (q : String) (st : TableState) :
    (handleSearch toLowerCase q st).users = st.users ∧
    filteredUsers toLowerCase (handleSearch toLowerCase q st) =
      st.users.filter (fun user => decide (
        (toLowerCase q).data <:+: (toLowerCase user.name).data ∨
        (toLowerCase q).data <:+: (toLowerCase user.email).data ∨
        (toLowerCase q).data <:+: (toLowerCase user.role).data)) ∧
    filteredUsers toLowerCase (handleSearch toLowerCase "" st) = st.users := by
  refine ⟨rfl, ?_, ?_⟩
  · unfold filteredUsers handleSearch
    apply List.filter_congr
    intro user _
    simp [matchesSearch, includes, hidem, Bool.or_assoc]
  · unfold filteredUsers handleSearch
    apply List.filter_eq_self.mpr
    intro user _
    simp [matchesSearch, includes, hempty]

/-- Witness of C1: the seed rows searched for "ADMIN". -/
theorem filteredUsers_after_handleSearch_witness :
    (∀ s, asciiLower (asciiLower s) = asciiLower s) ∧ asciiLower "" = "" ∧
    (handleSearch asciiLower "ADMIN" (loadData initialState)).users
      = (loadData initialState).users ∧
    filteredUsers asciiLower (handleSearch asciiLower "ADMIN" (loadData initialState)) =
      (loadData initialState).users.filter (fun user => decide (
        (asciiLower "ADMIN").data <:+: (asciiLower user.name).data ∨
        (asciiLower "ADMIN").data <:+: (asciiLower user.email).data ∨
        (asciiLower "ADMIN").data <:+: (asciiLower user.role).data)) ∧
    filteredUsers asciiLower (handleSearch asciiLower "" (loadData initialState))
      = (loadData initialState).users :=
  ⟨asciiLower_idem, asciiLower_empty,
    filteredUsers_after_handleSearch asciiLower asciiLower_idem asciiLower_empty "ADMIN"
      (loadData initialState)⟩

/-- C2: `handleSave(id)` keeps the length of the list and, position by position,
the id of every row; a row with the id `id` takes name, email, role and active
from the draft, and a row with another id is unchanged. -/
theorem handleSave_merges_only_target (id : Nat) (st : TableState) :
    (handleSave id st).users.length = st.users.length ∧
    ∀ (i : Nat) (u : User), st.users[i]? = some u →
      ∃ u', (handleSave id st).users[i]? = some u' ∧ u'.id = u.id ∧
        (u.id = id → u'.name = st.editFormData.name ∧ u'.email = st.editFormData.email ∧
          u'.role = st.editFormData.role ∧ u'.active = st.editFormData.active) ∧
        (u.id ≠ id → u' = u) := by
  refine ⟨by simp [handleSave], ?_⟩
  intro i u hu
  by_cases h : u.id = id
  · exact ⟨mergeDraft u st.editFormData, by simp [handleSave, hu, h], rfl,
      fun _ => ⟨rfl, rfl, rfl, rfl⟩, fun hne => absurd h hne⟩
  · exact ⟨u, by simp [handleSave, hu, h], rfl, fun heq => absurd heq h, fun _ => rfl⟩

/-- Witness of C2: John's row is edited, renamed in the draft and saved. -/
theorem handleSave_merges_only_target_witness :
    (handleEditChange (.name "Johnny")
        (handleEdit
          { id := 1, name := "John Doe", email := "john@example.com", role := "Admin",
            active := true }
          (loadData initialState))).users[1]?
      = some
          { id := 2, name := "Jane Smith", email := "jane@example.com", role := "User",
            active := true } ∧
    ∃ u', (handleSave 1 (handleEditChange (.name "Johnny")
        (handleEdit
          { id := 1, name := "John Doe", email := "john@example.com", role := "Admin",
            active := true }
          (loadData initialState)))).users[1]? = some u' ∧
      u'.id = 2 ∧
      ((2 : Nat) = 1 → u'.name = "Johnny" ∧ u'.email = "john@example.com" ∧
        u'.role = "Admin" ∧ u'.active = true) ∧
      ((2 : Nat) ≠ 1 → u' =
          { id := 2, name := "Jane Smith", email := "jane@example.com", role := "User",
            active := true }) :=
  ⟨rfl, (handleSave_merges_only_target 1 (handleEditChange (.name "Johnny")
        (handleEdit
          { id := 1, name := "John Doe", email := "john@example.com", role := "Admin",
            active := true }
          (loadData initialState)))).2 1 _ rfl⟩

/-- C3: on a list with pairwise distinct ids, a declined `handleDelete(id)` leaves
the state as it is; a confirmed one, when a row with the id is stored, takes
exactly that row out: the list was `l1 ++ x :: l2` with `x.id = id` and becomes
`l1 ++ l2`, one shorter, with no row of that id left. -/
theorem handleDelete_removes_exactly_one (id : Nat) (st : TableState)
    (hnd : (st.users.map (·.id)).Nodup) :
    handleDelete false id st = st ∧
    ((∃ u ∈ st.users, u.id = id) →
      ∃ l1 x l2, st.users = l1 ++ x :: l2 ∧ x.id = id ∧
        (handleDelete true id st).users = l1 ++ l2 ∧
        (handleDelete true id st).users.length + 1 = st.users.length ∧
        ∀ u ∈ (handleDelete true id st).users, u.id ≠ id) := by
  refine ⟨rfl, ?_⟩
  intro hmem
  obtain ⟨l1, x, l2, hsplit, hx, hfil⟩ := filter_ne_id_split st.users id hnd hmem
  refine ⟨l1, x, l2, hsplit, hx, ?_, ?_, ?_⟩
  · simpa [handleDelete] using hfil
  · have : (handleDelete true id st).users = l1 ++ l2 := by simpa [handleDelete] using hfil
    rw [this, hsplit]
    simp
    omega
  · intro u hu
    simp [handleDelete] at hu
    exact hu.2

/-- Witness of C3: Bob's row (id 3) is deleted from the seed rows. -/
theorem handleDelete_removes_exactly_one_witness :
    ((loadData initialState).users.map (·.id)).Nodup ∧
    (∃ u ∈ (loadData initialState).users, u.id = 3) ∧
    handleDelete false 3 (loadData initialState) = loadData initialState ∧
    ∃ l1 x l2, (loadData initialState).users = l1 ++ x :: l2 ∧ x.id = 3 ∧
      (handleDelete true 3 (loadData initialState)).users = l1 ++ l2 ∧
      (handleDelete true 3 (loadData initialState)).users.length + 1
        = (loadData initialState).users.length ∧
      ∀ u ∈ (handleDelete true 3 (loadData initialState)).users, u.id ≠ 3 :=
  have hnd : ((loadData initialState).users.map (·.id)).Nodup := by decide
  have hmem : ∃ u ∈ (loadData initialState).users, u.id = 3 :=
    ⟨{ id := 3, name := "Bob Johnson", email := "bob@example.com", role := "User",
       active := false }, by decide, rfl⟩
  ⟨hnd, hmem, (handleDelete_removes_exactly_one 3 (loadData initialState) hnd).1,
    (handleDelete_removes_exactly_one 3 (loadData initialState) hnd).2 hmem⟩

/-- C4: on a list with pairwise distinct ids, after `handleEdit(A)`, any sequence of
`handleEditChange` and then `handleEdit(B)`, with no save, the edit-target is
the id of `B`, the one stored row in editing is `B`, the draft holds the
fields of `B`, and the stored list is the one before. -/
theorem handleEdit_then_handleEdit (st : TableState) (A B : User) (changes : List EditChange)
    (hnd : (st.users.map (·.id)).Nodup) (hA : A ∈ st.users) (hB : B ∈ st.users) :
    (handleEdit B (changes.foldl (fun s e => handleEditChange e s) (handleEdit A st))).editingId
      = some B.id ∧
    (∀ u ∈ (handleEdit B (changes.foldl (fun s e => handleEditChange e s)
          (handleEdit A st))).users,
      rowEditing (handleEdit B (changes.foldl (fun s e => handleEditChange e s)
          (handleEdit A st))) u = true ↔ u = B) ∧
    (handleEdit B (changes.foldl (fun s e => handleEditChange e s)
        (handleEdit A st))).editFormData
      = { name := B.name, email := B.email, role := B.role, active := B.active } ∧
    (handleEdit B (changes.foldl (fun s e => handleEditChange e s) (handleEdit A st))).users
      = st.users ∧
    A ∈ (handleEdit B (changes.foldl (fun s e => handleEditChange e s)
        (handleEdit A st))).users := by
  have husers : (handleEdit B (changes.foldl (fun s e => handleEditChange e s)
      (handleEdit A st))).users = st.users := by
    show (changes.foldl (fun s e => handleEditChange e s) (handleEdit A st)).users = st.users
    rw [foldl_handleEditChange_users]
    rfl
  refine ⟨rfl, ?_, rfl, husers, by rw [husers]; exact hA⟩
  intro u hu
  rw [husers] at hu
  constructor
  · intro h
    have hid : u.id = B.id := by
      have : some B.id = some u.id := by simpa [rowEditing, handleEdit] using h
      exact (Option.some.inj this).symm
    exact eq_of_id_eq st.users hnd hu hB hid
  · intro h
    subst h
    simp [rowEditing, handleEdit]

/-- Witness of C4: John is edited and changed in the draft, then Jane is edited. -/
theorem handleEdit_then_handleEdit_witness :
    ((loadData initialState).users.map (·.id)).Nodup ∧
    (handleEdit
        { id := 2, name := "Jane Smith", email := "jane@example.com", role := "User",
          active := true }
        ([EditChange.name "Johnny", EditChange.active false].foldl
          (fun s e => handleEditChange e s)
          (handleEdit
            { id := 1, name := "John Doe", email := "john@example.com", role := "Admin",
              active := true }
            (loadData initialState)))).editFormData
      = { name := "Jane Smith", email := "jane@example.com", role := "User", active := true } :=
  have hnd : ((loadData initialState).users.map (·.id)).Nodup := by decide
  ⟨hnd, (handleEdit_then_handleEdit (loadData initialState)
      { id := 1, name := "John Doe", email := "john@example.com", role := "Admin",
        active := true }
      { id := 2, name := "Jane Smith", email := "jane@example.com", role := "User",
        active := true }
      [EditChange.name "Johnny", EditChange.active false] hnd (by decide) (by decide)).2.2.1⟩

/-- C5, as stated, fails: while Jane's row (id 2) is the edit-target,
`handleSave(1)` writes Jane's draft over John's row. -/
theorem handleSave_other_id_overwrites :
    (handleEdit
        { id := 2, name := "Jane Smith", email := "jane@example.com", role := "User",
          active := true }
        (loadData initialState)).editingId ≠ some 1 ∧
    (handleSave 1
        (handleEdit
          { id := 2, name := "Jane Smith", email := "jane@example.com", role := "User",
            active := true }
          (loadData initialState))).users[0]?
      = some
          { id := 1, name := "Jane Smith", email := "jane@example.com", role := "User",
            active := true } ∧
    (handleSave 1
        (handleEdit
          { id := 2, name := "Jane Smith", email := "jane@example.com", role := "User",
            active := true }
          (loadData initialState))).users
      ≠ (handleEdit
          { id := 2, name := "Jane Smith", email := "jane@example.com", role := "User",
            active := true }
          (loadData initialState)).users := by
  decide

/-- C5, amended: for an id that is not the edit-target no Save button is rendered.
Invoked all the same, `handleSave(id)` keeps the length of the list, leaves
every stored row whose id differs from `id` as it is and where it is, and
replaces every stored row that has the id, in place, by the row with the same
id and the name, email, role and active of the draft; when no stored row has
the id the list is unchanged. -/
theorem handleSave_not_target (toLowerCase : String → String) (id : Nat) (st : TableState)
    (h : st.editingId ≠ some id) :
    id ∉ saveButtons toLowerCase st ∧
    (handleSave id st).users.length = st.users.length ∧
    (∀ (i : Nat) (u : User), st.users[i]? = some u → u.id ≠ id →
      (handleSave id st).users[i]? = some u) ∧
    (∀ (i : Nat) (u : User), st.users[i]? = some u → u.id = id →
      (handleSave id st).users[i]? = some
        { id := u.id, name := st.editFormData.name, email := st.editFormData.email,
          role := st.editFormData.role, active := st.editFormData.active }) ∧
    ((∀ u ∈ st.users, u.id ≠ id) → (handleSave id st).users = st.users) := by
  refine ⟨?_, by simp [handleSave], ?_, ?_, ?_⟩
  · intro hmem
    simp only [saveButtons, List.mem_map, List.mem_filter] at hmem
    obtain ⟨u, ⟨_, hed⟩, hid⟩ := hmem
    apply h
    have : st.editingId = some u.id := by simpa [rowEditing] using hed
    rw [this, hid]
  · intro i u hu hne
    simp [handleSave, hu, hne]
  · intro i u hu heq
    simp [handleSave, hu, heq, mergeDraft]
  · intro hall
    show st.users.map _ = st.users
    conv_rhs => rw [← List.map_id st.users]
    apply List.map_congr_left
    intro u hu
    simp [hall u hu]

/-- Witness of C5 amended: Jane's row (id 2) is the edit-target and `handleSave(1)`
is invoked: no Save button is rendered for 1, John's row at index 0 keeps its
id and takes the four fields of Jane's draft, and Bob's row at index 2 stays. -/
theorem handleSave_not_target_witness :
    (handleEdit
        { id := 2, name := "Jane Smith", email := "jane@example.com", role := "User",
          active := true }
        (loadData initialState)).editingId ≠ some 1 ∧
    1 ∉ saveButtons asciiLower
      (handleEdit
        { id := 2, name := "Jane Smith", email := "jane@example.com", role := "User",
          active := true }
        (loadData initialState)) ∧
    (handleSave 1
        (handleEdit
          { id := 2, name := "Jane Smith", email := "jane@example.com", role := "User",
            active := true }
          (loadData initialState))).users[0]?
      = some
          { id := 1, name := "Jane Smith", email := "jane@example.com", role := "User",
            active := true } ∧
    (handleSave 1
        (handleEdit
          { id := 2, name := "Jane Smith", email := "jane@example.com", role := "User",
            active := true }
          (loadData initialState))).users[2]?
      = some
          { id := 3, name := "Bob Johnson", email := "bob@example.com", role := "User",
            active := false } :=
  have h : (handleEdit
      { id := 2, name := "Jane Smith", email := "jane@example.com", role := "User",
        active := true }
      (loadData initialState)).editingId ≠ some 1 := by decide
  ⟨h,
    (handleSave_not_target asciiLower 1
      (handleEdit
        { id := 2, name := "Jane Smith", email := "jane@example.com", role := "User",
          active := true }
        (loadData initialState)) h).1,
    (handleSave_not_target asciiLower 1
      (handleEdit
        { id := 2, name := "Jane Smith", email := "jane@example.com", role := "User",
          active := true }
        (loadData initialState)) h).2.2.2.1 0
      { id := 1, name := "John Doe", email := "john@example.com", role := "Admin",
        active := true }
      rfl rfl,
    (handleSave_not_target asciiLower 1
      (handleEdit
        { id := 2, name := "Jane Smith", email := "jane@example.com", role := "User",
          active := true }
        (loadData initialState)) h).2.2.1 2
      { id := 3, name := "Bob Johnson", email := "bob@example.com", role := "User",
        active := false }
      rfl (by decide)⟩

/-- C6, as stated, fails: after Cancel on John's row the draft still holds John's
fields; it is not the empty draft. -/
theorem cancelClick_keeps_draft :
    (handleEdit
        { id := 1, name := "John Doe", email := "john@example.com", role := "Admin",
          active := true }
        (loadData initialState)).editingId = some 1 ∧
    (cancelClick
        (handleEdit
          { id := 1, name := "John Doe", email := "john@example.com", role := "Admin",
            active := true }
          (loadData initialState))).editFormData
      = { name := "John Doe", email := "john@example.com", role := "Admin", active := true } ∧
    (cancelClick
        (handleEdit
          { id := 1, name := "John Doe", email := "john@example.com", role := "Admin",
            active := true }
          (loadData initialState))).editFormData
      ≠ initialEditFormData := by
  decide

/-- C6, amended: Cancel sets the edit-target to none, so no row is in editing,
and leaves the stored list, the search term and the draft as they were; the
draft is replaced by the next `handleEdit`. -/
theorem cancelClick_clears_target_only (st : TableState) :
    (cancelClick st).editingId = none ∧
    (∀ u : User, rowEditing (cancelClick st) u = false) ∧
    (cancelClick st).users = st.users ∧
    (cancelClick st).searchTerm = st.searchTerm ∧
    (cancelClick st).editFormData = st.editFormData ∧
    (∀ u : User, (handleEdit u (cancelClick st)).editFormData
      = { name := u.name, email := u.email, role := u.role, active := u.active }) :=
  ⟨rfl, fun _ => rfl, rfl, rfl, rfl, fun _ => rfl⟩

/-- C7, as stated, fails: John's row (id 1) is the edit-target and is deleted
with confirmation; the edit-target is still 1 afterwards. -/
theorem handleDelete_keeps_editingId :
    (handleEdit
        { id := 1, name := "John Doe", email := "john@example.com", role := "Admin",
          active := true }
        (loadData initialState)).editingId = some 1 ∧
    (handleDelete true 1
        (handleEdit
          { id := 1, name := "John Doe", email := "john@example.com", role := "Admin",
            active := true }
          (loadData initialState))).editingId = some 1 ∧
    (handleDelete true 1
        (handleEdit
          { id := 1, name := "John Doe", email := "john@example.com", role := "Admin",
            active := true }
          (loadData initialState))).editingId ≠ none := by
  decide

/-- C7, amended: while `id` is the edit-target no Delete button is rendered for it;
a confirmed `handleDelete(id)` leaves the edit-target at `id`, and since no
stored row has that id afterwards, no stored row is in editing. -/
theorem handleDelete_of_target (toLowerCase : String → String) (id : Nat) (st : TableState)
    (h : st.editingId = some id) :
    id ∉ deleteButtons toLowerCase st ∧
    (handleDelete true id st).editingId = some id ∧
    (∀ u ∈ (handleDelete true id st).users, rowEditing (handleDelete true id st) u = false) := by
  refine ⟨?_, h, ?_⟩
  · intro hmem
    simp only [deleteButtons, List.mem_map, List.mem_filter] at hmem
    obtain ⟨u, ⟨_, hed⟩, hid⟩ := hmem
    simp [rowEditing, h, hid] at hed
  · intro u hu
    have hne : u.id ≠ id := by
      simp [handleDelete] at hu
      exact hu.2
    have he : (handleDelete true id st).editingId = some id := h
    simp only [rowEditing, he]
    simpa using fun heq : id = u.id => hne heq.symm

/-- Witness of C7 amended: John's row is the edit-target and is deleted. -/
theorem handleDelete_of_target_witness :
    (handleEdit
        { id := 1, name := "John Doe", email := "john@example.com", role := "Admin",
          active := true }
        (loadData initialState)).editingId = some 1 ∧
    1 ∉ deleteButtons asciiLower
      (handleEdit
        { id := 1, name := "John Doe", email := "john@example.com", role := "Admin",
          active := true }
        (loadData initialState)) :=
  ⟨rfl, (handleDelete_of_target asciiLower 1
      (handleEdit
        { id := 1, name := "John Doe", email := "john@example.com", role := "Admin",
          active := true }
        (loadData initialState)) rfl).1⟩

/-- C12: on a list with pairwise distinct ids, `handleEdit(u)` for a stored row `u`
followed at once by `handleSave(u.id)` leaves the stored list equal to the one
before and the edit-target none. -/
theorem handleEdit_then_handleSave (st : TableState) (u : User)
    (hnd : (st.users.map (·.id)).Nodup) (hu : u ∈ st.users) :
    (handleSave u.id (handleEdit u st)).users = st.users ∧
    (handleSave u.id (handleEdit u st)).editingId = none := by
  refine ⟨?_, rfl⟩
  show st.users.map _ = st.users
  conv_rhs => rw [← List.map_id st.users]
  apply List.map_congr_left
  intro v hv
  by_cases h : v.id = u.id
  · have hvu : v = u := eq_of_id_eq st.users hnd hv hu h
    subst hvu
    simp [handleEdit, mergeDraft]
  · simp [h]

/-- Witness of C12: Alice's row (id 4) is edited and saved at once. -/
theorem handleEdit_then_handleSave_witness :
    ((loadData initialState).users.map (·.id)).Nodup ∧
    (handleSave 4
        (handleEdit
          { id := 4, name := "Alice Brown", email := "alice@example.com", role := "Editor",
            active := true }
          (loadData initialState))).users = (loadData initialState).users ∧
    (handleSave 4
        (handleEdit
          { id := 4, name := "Alice Brown", email := "alice@example.com", role := "Editor",
            active := true }
          (loadData initialState))).editingId = none :=
  have hnd : ((loadData initialState).users.map (·.id)).Nodup := by decide
  ⟨hnd, handleEdit_then_handleSave (loadData initialState)
      { id := 4, name := "Alice Brown", email := "alice@example.com", role := "Editor",
        active := true }
      hnd (by decide)⟩

end DataTable

namespace Counter

/-! ## The counter: lemmas -/

theorem addToHistory_history (action timestamp : String) (st : CounterState) :
    (addToHistory action timestamp st).history =
      { action := action, timestamp := timestamp } :: st.history.take 4 := rfl

theorem addToHistory_length_le (action timestamp : String) (st : CounterState) :
    (addToHistory action timestamp st).history.length ≤ 5 := by
  simp only [addToHistory, List.length_take]
  exact Nat.min_le_left _ _

/-- No handler lets the history grow beyond five entries. -/
theorem perform_length_le (a : Action) (st : CounterState) (h : st.history.length ≤ 5) :
    (perform a st).history.length ≤ 5 := by
  cases a with
  | increment t => exact addToHistory_length_le _ _ _
  | decrement t => exact addToHistory_length_le _ _ _
  | toggleAutoIncrement t => exact addToHistory_length_le _ _ _
  | reset t => exact addToHistory_length_le _ _ _
  | handleStepChange v => exact h
  | tick t =>
    simp only [perform, tick]
    split
    · exact addToHistory_length_le _ _ _
    · exact h

theorem run_length_le (actions : List Action) (st : CounterState)
    (h : st.history.length ≤ 5) : (run actions st).history.length ≤ 5 := by
  induction actions generalizing st with
  | nil => exact h
  | cons a rest ih => exact ih (perform a st) (perform_length_le a st h)

/-- The body of the effect reads only the two dependencies. -/
theorem effectBody_congr (prev next : CounterState)
    (h : prev.autoIncrement = next.autoIncrement ∧ prev.step = next.step) :
    effectBody prev = effectBody next := by
  simp [effectBody, h.1, h.2]

/-- When the installed interval is the one the body gives for the state before,
the effect leaves the one the body gives for the state after. -/
theorem useEffect_eq_effectBody (prev next : CounterState) :
    useEffect prev next (effectBody prev) = effectBody next := by
  unfold useEffect
  split
  · rename_i h
    exact effectBody_congr prev next h
  · rfl

/-- The installed interval always is the one that the body of the effect gives
for the current state: installed exactly while `autoIncrement` is true, and
closed over the current `step`. -/
theorem dispatch_interval (a : Action) (w : Mounted) (h : w.interval = effectBody w.state) :
    (dispatch a w).interval = effectBody (dispatch a w).state := by
  cases a with
  | tick t =>
    simp only [dispatch]
    split
    · exact h
    · rename_i step hstep
      show useEffect _ _ w.interval = _
      rw [h]
      exact useEffect_eq_effectBody _ _
  | increment t => show useEffect _ _ w.interval = _; rw [h]; exact useEffect_eq_effectBody _ _
  | decrement t => show useEffect _ _ w.interval = _; rw [h]; exact useEffect_eq_effectBody _ _
  | toggleAutoIncrement t =>
    show useEffect _ _ w.interval = _; rw [h]; exact useEffect_eq_effectBody _ _
  | reset t => show useEffect _ _ w.interval = _; rw [h]; exact useEffect_eq_effectBody _ _
  | handleStepChange v =>
    show useEffect _ _ w.interval = _; rw [h]; exact useEffect_eq_effectBody _ _

/-- In every state reached from the mount the installed interval is the one
that the body of the effect gives for the current state. -/
theorem dispatchAll_mount_interval (actions : List Action) :
    (dispatchAll actions mount).interval = effectBody (dispatchAll actions mount).state := by
  have key : ∀ (l : List Action) (w : Mounted), w.interval = effectBody w.state →
      (dispatchAll l w).interval = effectBody (dispatchAll l w).state := by
    intro l
    induction l with
    | nil => intro w h; exact h
    | cons a rest ih => intro w h; exact ih (dispatch a w) (dispatch_interval a w h)
  exact key actions mount rfl

/-- On the mounted component a tick does to the state what `tick` does. -/
theorem dispatch_tick_state (t : String) (w : Mounted) (h : w.interval = effectBody w.state) :
    (dispatch (.tick t) w).state = tick t w.state := by
  cases hauto : w.state.autoIncrement
  · have hint : w.interval = none := by simp [h, effectBody, hauto]
    simp [dispatch, hint, tick, hauto]
  · have hint : w.interval = some w.state.step := by simp [h, effectBody, hauto]
    simp [dispatch, hint, tick, hauto, intervalCallback]

/-- While an interval closed over `s` is installed, every tick adds `s`. -/
theorem dispatchAll_ticks_on (s : Int) (timestamps : List String) (w : Mounted)
    (hint : w.interval = some s) :
    (dispatchAll (timestamps.map Action.tick) w).state.count
        = w.state.count + timestamps.length * s ∧
    (dispatchAll (timestamps.map Action.tick) w).state.step = w.state.step ∧
    (dispatchAll (timestamps.map Action.tick) w).state.autoIncrement = w.state.autoIncrement ∧
    (dispatchAll (timestamps.map Action.tick) w).interval = some s := by
  induction timestamps generalizing w with
  | nil => simp [dispatchAll, hint]
  | cons t rest ih =>
    have hstep : dispatch (.tick t) w =
        { state := intervalCallback s t w.state, interval := some s } := by
      simp [dispatch, hint, useEffect, intervalCallback, addToHistory]
    have hrec := ih (dispatch (.tick t) w) (by rw [hstep])
    simp only [dispatchAll, List.map_cons, List.foldl_cons] at hrec ⊢
    rw [hstep] at hrec ⊢
    obtain ⟨h1, h2, h3, h4⟩ := hrec
    refine ⟨?_, h2, h3, h4⟩
    rw [h1]
    simp only [intervalCallback, addToHistory, List.length_cons]
    push_cast
    ring

/-- While no interval is installed, ticks change nothing. -/
theorem dispatchAll_ticks_off (timestamps : List String) (w : Mounted)
    (hint : w.interval = none) :
    dispatchAll (timestamps.map Action.tick) w = w := by
  induction timestamps with
  | nil => rfl
  | cons t rest ih =>
    have hstep : dispatch (.tick t) w = w := by simp [dispatch, hint]
    simp only [dispatchAll, List.map_cons, List.foldl_cons] at ih ⊢
    rw [hstep]
    exact ih

/-! ## The counter: the claims -/

/-- C8: in every state reached from the initial one by increments, decrements,
toggles, resets, step changes and ticks the history has at most five entries;
each handler that records an action puts its entry at index 0, followed by
the first four of the entries before, in their order; a step change, and a
tick while auto-increment is off, leave the history as it is. -/
theorem history_bounded_newest_first (actions : List Action) (timestamp value : String) :
    let st := run actions initialState
    st.history.length ≤ 5 ∧
    (increment timestamp st).history =
      { action := "Incremented by " ++ toString st.step ++ " to "
          ++ toString (st.count + st.step),
        timestamp := timestamp } :: st.history.take 4 ∧
    (decrement timestamp st).history =
      { action := "Decremented by " ++ toString st.step ++ " to "
          ++ toString (st.count - st.step),
        timestamp := timestamp } :: st.history.take 4 ∧
    (reset timestamp st).history =
      { action := "Counter reset to 0", timestamp := timestamp } :: st.history.take 4 ∧
    (toggleAutoIncrement timestamp st).history =
      { action := if st.autoIncrement then "Auto-increment stopped"
          else "Auto-increment started",
        timestamp := timestamp } :: st.history.take 4 ∧
    (tick timestamp st).history =
      (if st.autoIncrement then
        { action := "Auto-incremented by " ++ toString st.step ++ " to "
            ++ toString (st.count + st.step),
          timestamp := timestamp } :: st.history.take 4
      else st.history) ∧
    (handleStepChange value st).history = st.history := by
  intro st
  refine ⟨run_length_le actions initialState (by decide), rfl, rfl, rfl, ?_, ?_, rfl⟩
  · cases h : st.autoIncrement <;> simp [toggleAutoIncrement, addToHistory, h]
  · cases h : st.autoIncrement <;> simp [tick, addToHistory, h]

/-- C9: `handleStepChange` sets the step to an integer from 1 to 10: the parsed
number when it lies in that range, 10 when it is larger, 1 when it is zero or
negative or when the input does not parse; "15" gives 10, "0" and "abc"
give 1.  No other state variable changes. -/
theorem handleStepChange_clamps (value : String) (st : CounterState) :
    1 ≤ (handleStepChange value st).step ∧ (handleStepChange value st).step ≤ 10 ∧
    (∀ n : Int, parseInt value = some n →
      (1 ≤ n → n ≤ 10 → (handleStepChange value st).step = n) ∧
      (10 < n → (handleStepChange value st).step = 10) ∧
      (n ≤ 0 → (handleStepChange value st).step = 1)) ∧
    (parseInt value = none → (handleStepChange value st).step = 1) ∧
    (handleStepChange "15" st).step = 10 ∧
    (handleStepChange "0" st).step = 1 ∧
    (handleStepChange "abc" st).step = 1 ∧
    (handleStepChange value st).count = st.count ∧
    (handleStepChange value st).autoIncrement = st.autoIncrement ∧
    (handleStepChange value st).history = st.history := by
  have h15 : parseInt "15" = some 15 := by decide
  have h0 : parseInt "0" = some 0 := by decide
  have habc : parseInt "abc" = none := by decide
  refine ⟨?_, ?_, ?_, ?_, ?_, ?_, ?_, rfl, rfl, rfl⟩
  · simp only [handleStepChange]
    exact le_max_left _ _
  · simp only [handleStepChange]
    split <;> omega
  · intro n hn
    simp only [handleStepChange, hn]
    refine ⟨fun h1 h2 => ?_, fun h => ?_, fun h => ?_⟩ <;> split <;> omega
  · intro hn
    simp only [handleStepChange, hn]
    omega
  · simp only [handleStepChange, h15]
    decide
  · simp only [handleStepChange, h0]
    decide
  · simp only [handleStepChange, habc]
    decide

/-- Witness of C9: the input "7" parses to 7 and sets the step to 7. -/
theorem handleStepChange_clamps_witness :
    parseInt "7" = some 7 ∧ (1 : Int) ≤ 7 ∧ (7 : Int) ≤ 10 ∧
    (handleStepChange "7" initialState).step = 7 :=
  ⟨by decide, by decide, by decide,
    ((handleStepChange_clamps "7" initialState).2.2.1 7 (by decide)).1 (by decide) (by decide)⟩

/-- C10: `increment` sets the count to count + step and puts the entry
"Incremented by step to (count + step)" at index 0; `decrement` sets the count
to count - step and puts "Decremented by step to (count - step)" at index 0;
neither changes the step or the auto-increment flag.  With step 3 from count 0
the count becomes 3 and the entry reads "Incremented by 3 to 3". -/
theorem increment_decrement_spec (timestamp : String) (st : CounterState) :
    (increment timestamp st).count = st.count + st.step ∧
    (increment timestamp st).history[0]? = some
      { action := "Incremented by " ++ toString st.step ++ " to "
          ++ toString (st.count + st.step),
        timestamp := timestamp } ∧
    (increment timestamp st).step = st.step ∧
    (increment timestamp st).autoIncrement = st.autoIncrement ∧
    (decrement timestamp st).count = st.count - st.step ∧
    (decrement timestamp st).history[0]? = some
      { action := "Decremented by " ++ toString st.step ++ " to "
          ++ toString (st.count - st.step),
        timestamp := timestamp } ∧
    (decrement timestamp st).step = st.step ∧
    (decrement timestamp st).autoIncrement = st.autoIncrement ∧
    (increment timestamp (handleStepChange "3" initialState)).count = 3 ∧
    (increment timestamp (handleStepChange "3" initialState)).history =
      [{ action := "Incremented by 3 to 3", timestamp := timestamp }] ∧
    (decrement timestamp (handleStepChange "3" initialState)).history =
      [{ action := "Decremented by 3 to -3", timestamp := timestamp }] := by
  have h3 : handleStepChange "3" initialState =
      { count := 0, step := 3, autoIncrement := false, history := [] } := by decide
  refine ⟨rfl, ?_, rfl, rfl, rfl, ?_, rfl, rfl, ?_, ?_, ?_⟩
  · simp [increment, addToHistory]
  · simp [decrement, addToHistory]
  · rw [h3]; rfl
  · rw [h3]
    simp only [increment, addToHistory, List.take_succ_cons, List.take_nil]
    congr 2
  · rw [h3]
    simp only [decrement, addToHistory, List.take_succ_cons, List.take_nil]
    congr 2

/-- C11: from a state with auto-increment off, count `c` and step `s`, after the
toggle that enables auto-increment and `n` ticks with no other operation the
count is `c + n * s`, the step and the flag being as the toggle left them;
after the toggle that disables it no interval is installed, and any number of
further ticks leaves the count, and the whole component, as it was. -/
theorem autoIncrement_ticks (st : CounterState) (hoff : st.autoIncrement = false)
    (tOn tOff : String) (ticksOn ticksOff : List String) :
    let running := dispatchAll (ticksOn.map Action.tick)
      (dispatch (.toggleAutoIncrement tOn) { state := st, interval := effectBody st })
    let stopped := dispatch (.toggleAutoIncrement tOff) running
    running.state.count = st.count + ticksOn.length * st.step ∧
    running.state.step = st.step ∧
    running.state.autoIncrement = true ∧
    stopped.interval = none ∧
    stopped.state.autoIncrement = false ∧
    stopped.state.count = st.count + ticksOn.length * st.step ∧
    dispatchAll (ticksOff.map Action.tick) stopped = stopped ∧
    (dispatchAll (ticksOff.map Action.tick) stopped).state.count
      = st.count + ticksOn.length * st.step := by
  intro running stopped
  have hstart : dispatch (.toggleAutoIncrement tOn) { state := st, interval := effectBody st }
      = { state := toggleAutoIncrement tOn st, interval := some st.step } := by
    simp [dispatch, perform, useEffect, effectBody, toggleAutoIncrement, addToHistory, hoff]
  have hon := dispatchAll_ticks_on st.step ticksOn
    (dispatch (.toggleAutoIncrement tOn) { state := st, interval := effectBody st })
    (by rw [hstart])
  obtain ⟨h1, h2, h3, h4⟩ := hon
  have hcount : running.state.count = st.count + ticksOn.length * st.step := by
    show (dispatchAll _ _).state.count = _
    rw [h1, hstart]
    simp [toggleAutoIncrement, addToHistory]
  have hstepEq : running.state.step = st.step := by
    show (dispatchAll _ _).state.step = _
    rw [h2, hstart]
    simp [toggleAutoIncrement, addToHistory]
  have hauto : running.state.autoIncrement = true := by
    show (dispatchAll _ _).state.autoIncrement = _
    rw [h3, hstart]
    simp [toggleAutoIncrement, addToHistory, hoff]
  have hstopInt : stopped.interval = none := by
    show (dispatch (.toggleAutoIncrement tOff) running).interval = none
    simp [dispatch, perform, useEffect, effectBody, toggleAutoIncrement, addToHistory, hauto]
  have hstopCount : stopped.state.count = st.count + ticksOn.length * st.step := by
    show (dispatch (.toggleAutoIncrement tOff) running).state.count = _
    rw [← hcount]
    simp [dispatch, perform, toggleAutoIncrement, addToHistory]
  have hstopAuto : stopped.state.autoIncrement = false := by
    show (dispatch (.toggleAutoIncrement tOff) running).state.autoIncrement = _
    simp [dispatch, perform, toggleAutoIncrement, addToHistory, hauto]
  have hfix := dispatchAll_ticks_off ticksOff stopped hstopInt
  exact ⟨hcount, hstepEq, hauto, hstopInt, hstopAuto, hstopCount, hfix, by rw [hfix]; exact hstopCount⟩

/-- Witness of C11: with step 2 from count 0, three ticks give 6, and a tick after
the toggle that disables auto-increment leaves 6. -/
theorem autoIncrement_ticks_witness :
    (handleStepChange "2" initialState).autoIncrement = false ∧
    (dispatchAll ((["10:00:01", "10:00:02", "10:00:03"]).map Action.tick)
        (dispatch (.toggleAutoIncrement "10:00:00")
          { state := handleStepChange "2" initialState,
            interval := effectBody (handleStepChange "2" initialState) })).state.count = 6 ∧
    (dispatchAll ((["10:00:04", "10:00:05"]).map Action.tick)
        (dispatch (.toggleAutoIncrement "10:00:03")
          (dispatchAll ((["10:00:01", "10:00:02", "10:00:03"]).map Action.tick)
            (dispatch (.toggleAutoIncrement "10:00:00")
              { state := handleStepChange "2" initialState,
                interval := effectBody (handleStepChange "2" initialState) })))).state.count
      = 6 :=
  ⟨rfl,
    (autoIncrement_ticks (handleStepChange "2" initialState) rfl "10:00:00" "10:00:03"
      ["10:00:01", "10:00:02", "10:00:03"] ["10:00:04", "10:00:05"]).1.trans (by decide),
    (autoIncrement_ticks (handleStepChange "2" initialState) rfl "10:00:00" "10:00:03"
      ["10:00:01", "10:00:02", "10:00:03"] ["10:00:04", "10:00:05"]).2.2.2.2.2.2.2.trans
      (by decide)⟩

end Counter
